import Mathlib

/-!
Verification development for `crates/http/src/calendar_share.rs`
(public calendar share-link resolution and iCalendar export).

The repository's source file contains two layers:

* the live body of `handle_calendar_share_ical`, which hashes the
  supplied secret, issues a directory query whose result is discarded,
  and unconditionally returns `Err(Resource(NotFound))` with the detail
  `"Calendar share link not found"`;
* a commented-out block (lines 59-140 of the file, introduced by
  "Below is the pseudo-code for what the full implementation would look
  like") giving the full share-link resolution and export pipeline.

We embed both.  Rust `String` values are modelled as `List Char`; the
external collaborators (principal directory, resource listing, archived
record store, secret hashing) are modelled as explicit parameters packed
in an `Env` record, since their implementations live outside this
repository.  Fallible collaborator calls return `Except StorageErr`.
-/

/-- A storage-layer error produced by a collaborator (directory listing,
resource listing, record fetch).  `code` is the opaque cause; `context`
is the list of location strings accumulated by `caused_by`. -/
structure StorageErr where
  code : Nat
  context : List String
deriving DecidableEq, Repr

/-- `trc::Error` as observed by callers of this module: either the
`EventType::Resource(ResourceEvent::NotFound)` error carrying a human
readable `details` string, or a propagated storage-layer error. -/
inductive TrcError where
  | notFound (detail : String)
  | storage (e : StorageErr)
deriving DecidableEq, Repr

/-- `AddContext::caused_by(trc::location!())`: augments a storage error
with one more location string of context. -/
def StorageErr.causedBy (e : StorageErr) (loc : String) : StorageErr :=
  { e with context := e.context ++ [loc] }

/-- One data entry attached to a principal.  Only the
`PrincipalData::CalendarShareLink` variant participates in share-link
resolution; every other variant of the directory crate's enum is
collapsed into `other`. -/
inductive PrincipalData where
  | calendarShareLink (linkSecret : List Char)
  | other (tag : Nat)
deriving DecidableEq, Repr

/-- A directory principal: a stable numeric id and its data entries. -/
structure Principal where
  id : Nat
  data : List PrincipalData
deriving DecidableEq, Repr

/-- A calendar resource from `fetch_dav_resources_public`: container or
leaf, with its collection id and document id. -/
structure Resource where
  isContainer : Bool
  collectionId : Nat
  documentId : Nat
deriving DecidableEq, Repr

/-- Modelled from the spec: the archived, binary-encoded form of a
single calendar event (`groupware::calendar::CalendarEvent` lives
outside this repository); it "decodes into a structured event with at
least a renderable textual body".  `ical` is that body, the value
returned by `to_ical_string`. -/
structure CalendarEvent where
  ical : List Char
deriving DecidableEq, Repr

/-- Modelled from the spec: the raw archived bytes fetched from the
store; `unarchive` either decodes them into a `CalendarEvent` or fails
(a corrupt or schema-mismatched record). -/
inductive RecordBytes where
  | valid (ev : CalendarEvent)
  | corrupt (tag : Nat)
deriving DecidableEq, Repr

/-- `event_data.unarchive::<CalendarEvent>()`. -/
def unarchive : RecordBytes → Except Unit CalendarEvent
  | .valid ev => .ok ev
  | .corrupt _ => .error ()

/-- `event.to_ical_string()`. -/
def to_ical_string (ev : CalendarEvent) : List Char :=
  ev.ical

/-- The external collaborators of the module, as one record:
`hashSecret` is `utils::config::utils::hash_secret`; `directoryList` is
the outcome of enumerating principals via the directory; `fetchResources`
is `fetch_dav_resources_public(account_id, SyncCollection::Calendar)`;
`getValue` is `store().get_value::<AlignedBytes>(ValueKey::archive(
account_id, Collection::CalendarEvent, document_id))`. -/
structure Env where
  hashSecret : List Char → List Char
  directoryList : Except StorageErr (List Principal)
  fetchResources : Nat → Except StorageErr (List Resource)
  getValue : Nat → Nat → Except StorageErr (Option RecordBytes)

/-- `link_secret.strip_prefix("$cal$")`: removes the literal `$cal$`
tag, or yields nothing when the token does not start with it. -/
def stripTag : List Char → Option (List Char)
  | '$' :: 'c' :: 'a' :: 'l' :: '$' :: rest => some rest
  | _ => none

/-- Rust `str::split_once(c)`: splits at the first occurrence of `c`,
yielding the part before and the part after; nothing when `c` is
absent. -/
def splitOnce (c : Char) : List Char → Option (List Char × List Char)
  | [] => none
  | x :: xs =>
    if x = c then some ([], xs)
    else (splitOnce c xs).map (fun p => (x :: p.1, p.2))

/-- `decode`: `link_secret.strip_prefix("$cal$").and_then(|s|
s.split_once('$'))`, yielding the `(meta, stored_hash)` pair. -/
def decode (t : List Char) : Option (List Char × List Char) :=
  (stripTag t).bind (splitOnce '$')

/-- Rust `str::split(c)` collected into a vector: the list of maximal
chunks of `s` between occurrences of `c` (empty chunks included). -/
def splitAll (c : Char) : List Char → List (List Char)
  | [] => [[]]
  | x :: xs =>
    if x = c then [] :: splitAll c xs
    else
      match splitAll c xs with
      | [] => [[x]]
      | h :: t => (x :: h) :: t

/-- `parseMeta`: `meta.split('|').collect()` followed by the
`parts.len() >= 3` guard; yields `parts[0]` (the calendar identifier)
when at least three pipe-delimited fields are present. -/
def parseMeta (meta : List Char) : Option (List Char) :=
  match splitAll '|' meta with
  | p0 :: _ :: _ :: _ => some p0
  | _ => none

/-- Modelled from the spec: `encode(calendarId, extraFields)` is not in
the read path of the source; per the spec it "produces
`$cal$<calendarId>|<extraFields...>$<verificationHash>`". -/
def encode (calId : List Char) (extra : List (List Char)) (hash : List Char) :
    List Char :=
  "$cal$".data ++ calId ++ extra.flatMap (fun f => '|' :: f) ++ '$' :: hash

/-- Inspection of one principal data entry against the hashed bearer
secret: decode the share-link token, compare its stored hash, then parse
the meta portion; any failure along the way yields no match. -/
def scanEntry (hashedSecret : List Char) : PrincipalData → Option (List Char)
  | .calendarShareLink linkSecret =>
    match decode linkSecret with
    | some (meta, storedHash) =>
      if storedHash = hashedSecret then parseMeta meta else none
    | none => none
  | .other _ => none

/-- The inner per-entry loop over a principal's data: yields the first
entry's parsed calendar id that matches and stops there (`break`). -/
def scanEntries (hashedSecret : List Char) : List PrincipalData → Option (List Char)
  | [] => none
  | e :: es =>
    match scanEntry hashedSecret e with
    | some cid => some cid
    | none => scanEntries hashedSecret es

/-- The outer per-principal loop: yields `(principal.id, calendar_id)`
for the first principal holding a matching entry and stops there
(`if calendar_id.is_some() { break; }`). -/
def resolveShare (hashedSecret : List Char) : List Principal → Option (Nat × List Char)
  | [] => none
  | p :: ps =>
    match scanEntries hashedSecret p.data with
    | some cid => some (p.id, cid)
    | none => resolveShare hashedSecret ps

/-- `HttpResponse` as assembled by this module: status code, headers,
and the document body. -/
structure HttpResponse where
  status : Nat
  headers : List (String × String)
  body : List Char
deriving DecidableEq, Repr

/-- The fixed error value of lines 55-57 and of both `ok_or_else`
closures of the commented block: `Resource(NotFound)` with details
`"Calendar share link not found"`. -/
def notFoundErr : TrcError :=
  .notFound "Calendar share link not found"

/-- The fixed iCal header of line 103. -/
def icalHeader : List Char :=
  "BEGIN:VCALENDAR\r\nVERSION:2.0\r\nPRODID:-//Stalwart//Calendar Share//EN\r\n".data

/-- The fixed iCal footer of line 125. -/
def icalFooter : List Char :=
  "END:VCALENDAR\r\n".data

/-- `trc::location!()` at the `fetch_dav_resources_public` call
(line 100). -/
def fetchLoc : String := "crates/http/src/calendar_share.rs:100"

/-- `trc::location!()` at the `get_value` call (line 115). -/
def getValueLoc : String := "crates/http/src/calendar_share.rs:115"

/-- Modelled from the spec: the directory-listing step of the pipeline
("the directory listing ... collaborators fail ... propagated with
contextual location information"); the live call at lines 42-45 discards
its result and the commented block reads from an aggregate
`all_principals` without showing its error handling. -/
def directoryLoc : String := "crates/http/src/calendar_share.rs:44"

/-- The filter of line 106:
`!resource.is_container() && resource.collection_id().to_string() == calendar_id`. -/
def isMatch (calendarId : List Char) (r : Resource) : Bool :=
  !r.isContainer && (Nat.repr r.collectionId).data == calendarId

/-- The per-resource loop body of lines 105-123, returning the list of
event fragments appended to `ical_content` (in listing order).  For each
resource passing the `isMatch` filter: fetch the archived record
(`?`-propagating storage errors with `caused_by` context), skip a
missing record, skip a record that fails to `unarchive`, and otherwise
emit `event.to_ical_string()`. -/
def buildBodies (env : Env) (accountId : Nat) (calendarId : List Char) :
    List Resource → Except TrcError (List (List Char))
  | [] => .ok []
  | r :: rs =>
    if isMatch calendarId r then
      match env.getValue accountId r.documentId with
      | .error e => .error (.storage (e.causedBy getValueLoc))
      | .ok none => buildBodies env accountId calendarId rs
      | .ok (some bytes) =>
        match unarchive bytes with
        | .ok ev =>
          (buildBodies env accountId calendarId rs).map
            (fun tail => to_ical_string ev :: tail)
        | .error _ => buildBodies env accountId calendarId rs
    else buildBodies env accountId calendarId rs

/-- The full share-link export pipeline: the commented-out block of
`handle_calendar_share_ical` (lines 59-140), with the hashing of the
live prologue.  Resolution failure yields `notFoundErr`; collaborator
failures propagate as storage errors with `caused_by` context; the
response carries the assembled iCal document. -/
def exportSharedCalendar (env : Env) (secret : List Char) :
    Except TrcError HttpResponse :=
  let hashedSecret := env.hashSecret secret
  match env.directoryList with
  | .error e => .error (.storage (e.causedBy directoryLoc))
  | .ok principals =>
    match resolveShare hashedSecret principals with
    | none => .error notFoundErr
    | some (accountId, calendarId) =>
      match env.fetchResources accountId with
      | .error e => .error (.storage (e.causedBy fetchLoc))
      | .ok resources =>
        match buildBodies env accountId calendarId resources with
        | .error e => .error e
        | .ok bodies =>
          .ok
            { status := 200
              headers :=
                [("Content-Type", "text/calendar; charset=utf-8"),
                 ("Content-Disposition", "attachment; filename=\"calendar.ics\"")]
              body := icalHeader ++ bodies.flatten ++ icalFooter }

/-- The live body of `handle_calendar_share_ical` (lines 31-57): hash
the secret, issue the directory query (result bound to `principals` and
never used), and return `Err(Resource(NotFound))` with details
`"Calendar share link not found"`; everything below the `return` is the
commented-out block. -/
def handle_calendar_share_ical (env : Env) (secret : List Char) :
    Except TrcError HttpResponse :=
  let _hashedSecret := env.hashSecret secret
  let _principals := env.directoryList
  .error notFoundErr

/-- Whether the per-resource loop body would emit an event fragment for
`r`: its archived record is present and decodes into a `CalendarEvent`. -/
def rendersBody (env : Env) (accountId : Nat) (r : Resource) : Bool :=
  match env.getValue accountId r.documentId with
  | .ok (some bytes) =>
    match unarchive bytes with
    | .ok _ => true
    | .error _ => false
  | _ => false

/-- A sample share-link token (`calendar id 7`, two reserved fields,
stored hash `h`) used by the concrete instances below. -/
def sampleToken : List Char := "$cal$7|a|b$h".data

/-- A sample principal holding `sampleToken` as its second data entry. -/
def samplePrincipal : Principal :=
  { id := 5, data := [.other 0, .calendarShareLink sampleToken] }

/-- A sample decodable event record body. -/
def sampleEvent : CalendarEvent :=
  { ical := "BEGIN:VEVENT\r\nUID:1\r\nEND:VEVENT\r\n".data }

/-- Sample resources: one container plus three leaves in calendar `7`
and two leaves in calendar `8` of the same account. -/
def sampleResources : List Resource :=
  [⟨true, 7, 0⟩, ⟨false, 7, 1⟩, ⟨false, 7, 2⟩, ⟨false, 7, 3⟩,
   ⟨false, 8, 4⟩, ⟨false, 8, 5⟩]

/-- A sample environment on which the full pipeline succeeds: hashing is
modelled as the identity, the directory holds a non-matching principal
before `samplePrincipal`, and every archived record is present and
decodable. -/
def sampleEnv : Env :=
  { hashSecret := fun s => s
    directoryList := .ok [⟨9, [.other 1]⟩, samplePrincipal]
    fetchResources := fun _ => .ok sampleResources
    getValue := fun _ _ => .ok (some (.valid sampleEvent)) }

theorem stripTag_some {t r : List Char} (h : stripTag t = some r) :
    t = '$' :: 'c' :: 'a' :: 'l' :: '$' :: r := by
  unfold stripTag at h
  split at h
  · rename_i rest
    have hr : rest = r := Option.some.inj h
    rw [hr]
  · exact absurd h (by simp)

theorem stripTag_tag (rest : List Char) :
    stripTag ("$cal$".data ++ rest) = some rest := rfl

theorem splitOnce_append {c : Char} {ys : List Char} :
    ∀ {xs : List Char}, c ∉ xs → splitOnce c (xs ++ c :: ys) = some (xs, ys) := by
  intro xs
  induction xs with
  | nil => intro _; simp [splitOnce]
  | cons x xs ih =>
    intro h
    have hx : ¬x = c := fun e => h (e ▸ List.mem_cons_self x xs)
    have hxs : c ∉ xs := fun hm => h (List.mem_cons_of_mem _ hm)
    simp [splitOnce, hx, ih hxs]

theorem splitAll_ne_nil (c : Char) : ∀ s : List Char, splitAll c s ≠ [] := by
  intro s
  induction s with
  | nil => simp [splitAll]
  | cons x xs ih =>
    by_cases hx : x = c
    · simp [splitAll, hx]
    · cases hs : splitAll c xs with
      | nil => exact absurd hs ih
      | cons h t => simp [splitAll, hx, hs]

theorem splitAll_append {c : Char} {ys : List Char} :
    ∀ {xs : List Char}, c ∉ xs →
      splitAll c (xs ++ c :: ys) = xs :: splitAll c ys := by
  intro xs
  induction xs with
  | nil => intro _; simp [splitAll]
  | cons x xs ih =>
    intro h
    have hx : ¬x = c := fun e => h (e ▸ List.mem_cons_self x xs)
    have hxs : c ∉ xs := fun hm => h (List.mem_cons_of_mem _ hm)
    simp [splitAll, hx, ih hxs]

theorem two_le_splitAll_length {c : Char} :
    ∀ {s : List Char}, c ∈ s → 2 ≤ (splitAll c s).length := by
  intro s
  induction s with
  | nil => intro h; cases h
  | cons x xs ih =>
    intro h
    by_cases hx : x = c
    · have h1 : 1 ≤ (splitAll c xs).length :=
        List.length_pos.2 (splitAll_ne_nil c xs)
      simp [splitAll, hx]
      omega
    · have hm : c ∈ xs := by
        rcases List.mem_cons.1 h with h1 | h1
        · exact absurd h1.symm hx
        · exact h1
      have h2 := ih hm
      cases hs : splitAll c xs with
      | nil => exact absurd hs (splitAll_ne_nil c xs)
      | cons hh tt =>
        rw [hs] at h2
        simp [splitAll, hx, hs]
        simpa using h2

theorem parseMeta_none_of_short {meta : List Char}
    (h : (splitAll '|' meta).length < 3) : parseMeta meta = none := by
  unfold parseMeta
  split
  · rename_i p0 p1 p2 t heq
    rw [heq] at h
    simp only [List.length_cons] at h
    omega
  · rfl

theorem scanEntries_append {hs : List Char} :
    ∀ {pre : List PrincipalData}, scanEntries hs pre = none →
      ∀ l, scanEntries hs (pre ++ l) = scanEntries hs l := by
  intro pre
  induction pre with
  | nil => intro _ l; rfl
  | cons x xs ih =>
    intro h l
    cases hx : scanEntry hs x with
    | some cid => rw [scanEntries, hx] at h; cases h
    | none =>
      rw [scanEntries, hx] at h
      rw [List.cons_append, scanEntries, hx]
      exact ih h l

theorem buildBodies_ok {env : Env} {aid : Nat} {cid : List Char} :
    ∀ {rs : List Resource},
      (∀ r ∈ rs, isMatch cid r = true →
        ∀ e, env.getValue aid r.documentId ≠ .error e) →
      ∃ bodies, buildBodies env aid cid rs = .ok bodies ∧
        bodies.length =
          (rs.filter (fun r => isMatch cid r && rendersBody env aid r)).length := by
  intro rs
  induction rs with
  | nil => intro _; exact ⟨[], rfl, rfl⟩
  | cons r rs ih =>
    intro h
    have hr := h r (List.mem_cons_self r rs)
    obtain ⟨bodies, hb, hlen⟩ :=
      ih (fun x hx hm e => h x (List.mem_cons_of_mem _ hx) hm e)
    cases hm : isMatch cid r with
    | false =>
      refine ⟨bodies, ?_, ?_⟩
      · simp [buildBodies, hm, hb]
      · simp [List.filter_cons, hm, hlen]
    | true =>
      cases hg : env.getValue aid r.documentId with
      | error e => exact absurd hg (hr hm e)
      | ok vo =>
        cases vo with
        | none =>
          refine ⟨bodies, ?_, ?_⟩
          · simp [buildBodies, hm, hg, hb]
          · simp [List.filter_cons, hm, rendersBody, hg, hlen]
        | some bytes =>
          cases hu : unarchive bytes with
          | error u =>
            refine ⟨bodies, ?_, ?_⟩
            · simp [buildBodies, hm, hg, hu, hb]
            · simp [List.filter_cons, hm, rendersBody, hg, hu, hlen]
          | ok ev =>
            refine ⟨to_ical_string ev :: bodies, ?_, ?_⟩
            · simp [buildBodies, hm, hg, hu, hb, Except.map]
            · simp [List.filter_cons, hm, rendersBody, hg, hu, hlen]

theorem buildBodies_all_skipped (env : Env) (aid : Nat) (cid : List Char) :
    ∀ {rs : List Resource}, (∀ r ∈ rs, isMatch cid r = false) →
      buildBodies env aid cid rs = .ok [] := by
  intro rs
  induction rs with
  | nil => intro _; rfl
  | cons r rs ih =>
    intro h
    have hm := h r (List.mem_cons_self r rs)
    have ht := ih (fun x hx => h x (List.mem_cons_of_mem _ hx))
    simp [buildBodies, hm, ht]

theorem buildBodies_error {env : Env} {aid : Nat} {cid : List Char}
    {r : Resource} {e : StorageErr} (suf : List Resource)
    (hm : isMatch cid r = true)
    (hg : env.getValue aid r.documentId = .error e) :
    ∀ {pre : List Resource},
      (∀ x ∈ pre, isMatch cid x = true →
        ∀ e2, env.getValue aid x.documentId ≠ .error e2) →
      buildBodies env aid cid (pre ++ r :: suf) =
        .error (.storage (e.causedBy getValueLoc)) := by
  intro pre
  induction pre with
  | nil => intro _; simp [buildBodies, hm, hg]
  | cons x xs ih =>
    intro h
    have hx := h x (List.mem_cons_self x xs)
    have htail := ih (fun y hy hm2 e2 => h y (List.mem_cons_of_mem _ hy) hm2 e2)
    cases hmx : isMatch cid x with
    | false => simp [buildBodies, hmx, htail]
    | true =>
      cases hgx : env.getValue aid x.documentId with
      | error e2 => exact absurd hgx (hx hmx e2)
      | ok vo =>
        cases vo with
        | none => simp [buildBodies, hmx, hgx, htail]
        | some bytes =>
          cases hu : unarchive bytes with
          | error u => simp [buildBodies, hmx, hgx, hu, htail]
          | ok ev => simp [buildBodies, hmx, hgx, hu, htail, Except.map]

/-- C4: Codec round trip — for every calendar id `calId`, extra-field
list `extra` and verification hash such that `encode calId extra hash`
produces a valid token of the form `$cal$<calId>|<fields>$<hash>` (the
calendar id free of `$` and `|`, the extra fields free of `$`, and at
least two extra fields so the meta portion has at least three
pipe-delimited fields), `decode` returns the `(meta, hash)` pair and
`parseMeta meta` returns `calId`. -/
theorem encode_decode_parseMeta_roundtrip
    (calId hash : List Char) (extra : List (List Char))
    (hd : '$' ∉ calId) (hb : '|' ∉ calId)
    (hx : ∀ f ∈ extra, '$' ∉ f) (hlen : 2 ≤ extra.length) :
    decode (encode calId extra hash) =
      some (calId ++ extra.flatMap (fun f => '|' :: f), hash) ∧
    parseMeta (calId ++ extra.flatMap (fun f => '|' :: f)) = some calId := by
  constructor
  · have hM : '$' ∉ calId ++ extra.flatMap (fun f => '|' :: f) := by
      intro hmem
      rcases List.mem_append.1 hmem with h | h
      · exact hd h
      · rcases List.mem_flatMap.1 h with ⟨f, hf, hm⟩
        rcases List.mem_cons.1 hm with h1 | h1
        · exact absurd h1 (by decide)
        · exact hx f hf h1
    have he : encode calId extra hash =
        "$cal$".data ++
          ((calId ++ extra.flatMap (fun f => '|' :: f)) ++ '$' :: hash) := by
      simp [encode]
    rw [decode, he, stripTag_tag]
    exact splitOnce_append hM
  · obtain ⟨f1, extra1, rfl⟩ : ∃ f1 t, extra = f1 :: t := by
      cases extra with
      | nil => simp at hlen
      | cons a t => exact ⟨a, t, rfl⟩
    obtain ⟨f2, extra2, rfl⟩ : ∃ f2 t, extra1 = f2 :: t := by
      cases extra1 with
      | nil => simp at hlen
      | cons a t => exact ⟨a, t, rfl⟩
    have hmeta : calId ++ (f1 :: f2 :: extra2).flatMap (fun f => '|' :: f) =
        calId ++ '|' :: (f1 ++ '|' :: (f2 ++ extra2.flatMap (fun f => '|' :: f))) := by
      simp [List.flatMap_cons]
    rw [hmeta]
    unfold parseMeta
    rw [splitAll_append hb]
    have hmem : ('|' : Char) ∈ f1 ++ '|' :: (f2 ++ extra2.flatMap (fun f => '|' :: f)) :=
      List.mem_append.2 (Or.inr (List.mem_cons_self _ _))
    have h2 := two_le_splitAll_length hmem
    cases hs : splitAll '|' (f1 ++ '|' :: (f2 ++ extra2.flatMap (fun f => '|' :: f))) with
    | nil => exact absurd hs (splitAll_ne_nil _ _)
    | cons q qs =>
      cases qs with
      | nil => rw [hs] at h2; simp at h2
      | cons q2 qs2 => rfl

/-- Concrete instance of the codec round trip at
`calId = "7"`, `extra = ["a", "b"]`, `hash = "h"`. -/
theorem encode_decode_parseMeta_roundtrip_witness :
    decode (encode "7".data ["a".data, "b".data] "h".data) =
      some ("7|a|b".data, "h".data) ∧
    parseMeta "7|a|b".data = some "7".data := by
  have h := encode_decode_parseMeta_roundtrip "7".data "h".data
    ["a".data, "b".data] (by decide) (by decide)
    (by intro f hf; fin_cases hf <;> decide) (by decide)
  exact h

/-- C5: a principal data entry whose token text does not start with the
literal `$cal$` tag is never treated as a match by the scanner,
regardless of the token's hash portion or of the (hashed) bearer secret
supplied. -/
theorem no_tag_never_matches (hashedSecret t : List Char)
    (h : ∀ rest, t ≠ "$cal$".data ++ rest) :
    scanEntry hashedSecret (.calendarShareLink t) = none := by
  have hst : stripTag t = none := by
    cases hc : stripTag t with
    | none => rfl
    | some r =>
      have e : "$cal$".data ++ r = '$' :: 'c' :: 'a' :: 'l' :: '$' :: r := rfl
      exact absurd (stripTag_some hc) (e ▸ h r)
  simp [scanEntry, decode, hst]

/-- Concrete instance: the token `nope$x` (no `$cal$` tag) never
matches, even against a hashed secret equal to its trailing hash. -/
theorem no_tag_never_matches_witness :
    scanEntry "x".data (.calendarShareLink "nope$x".data) = none :=
  no_tag_never_matches "x".data "nope$x".data (by
    intro rest hcontra
    injection hcontra with h1 _
    exact absurd h1 (by decide))

/-- C6: a token whose meta portion splits on `|` into fewer than three
fields is ignored by the scanner — no calendar id is produced even when
the stored hash equals the hashed bearer secret — and the entry is
skipped silently: scanning a data list starting with it proceeds exactly
as if the entry were absent. -/
theorem short_meta_ignored (hashedSecret t meta storedHash : List Char)
    (hdec : decode t = some (meta, storedHash))
    (hlen : (splitAll '|' meta).length < 3) :
    scanEntry hashedSecret (.calendarShareLink t) = none ∧
    ∀ es, scanEntries hashedSecret (.calendarShareLink t :: es) =
      scanEntries hashedSecret es := by
  have hnone : scanEntry hashedSecret (.calendarShareLink t) = none := by
    simp [scanEntry, hdec, parseMeta_none_of_short hlen]
  refine ⟨hnone, fun es => ?_⟩
  rw [scanEntries, hnone]

/-- Concrete instance: token `$cal$7|a$h` (two meta fields) is ignored
although its stored hash `h` equals the hashed secret `h`. -/
theorem short_meta_ignored_witness :
    scanEntry "h".data (.calendarShareLink "$cal$7|a$h".data) = none ∧
    scanEntries "h".data [.calendarShareLink "$cal$7|a$h".data] =
      scanEntries "h".data [] := by
  have h := short_meta_ignored "h".data "$cal$7|a$h".data "7|a".data "h".data
    (by decide) (by decide)
  exact ⟨h.1, h.2 []⟩

/-- C7: the scanner short-circuits on the first verifying entry — when
the first principal yields no match and the second principal holds a
verifying entry `e` (after some non-matching entries `pre`), resolution
returns the second principal's id together with the calendar id parsed
from `e`, and the result is the same for every continuation of the entry
list (`suf`) and of the principal list (`ps`): nothing after the match
is examined. -/
theorem second_principal_short_circuit (hashedSecret : List Char)
    (a1 a2 : Nat) (d1 pre : List PrincipalData) (e : PrincipalData)
    (cid : List Char)
    (h1 : scanEntries hashedSecret d1 = none)
    (hpre : scanEntries hashedSecret pre = none)
    (he : scanEntry hashedSecret e = some cid) :
    ∀ suf ps, resolveShare hashedSecret
      (⟨a1, d1⟩ :: ⟨a2, pre ++ e :: suf⟩ :: ps) = some (a2, cid) := by
  intro suf ps
  rw [resolveShare]
  simp only [h1]
  rw [resolveShare]
  simp only [scanEntries_append hpre, scanEntries, he]

/-- Concrete instance: two principals, only the second (id 5) holding
the verifying token; the result is `(5, "7")` whatever follows. -/
theorem second_principal_short_circuit_witness :
    resolveShare "h".data
      [⟨9, [.other 1]⟩,
       ⟨5, [.other 0] ++ PrincipalData.calendarShareLink sampleToken ::
            [.calendarShareLink "$cal$8|a|b$h".data]⟩,
       ⟨3, [.calendarShareLink "$cal$9|a|b$h".data]⟩] = some (5, "7".data) :=
  second_principal_short_circuit "h".data 9 5 [.other 1] [.other 0]
    (.calendarShareLink sampleToken) "7".data (by decide) (by decide) (by decide)
    [.calendarShareLink "$cal$8|a|b$h".data]
    [⟨3, [.calendarShareLink "$cal$9|a|b$h".data]⟩]

/-- C2: for every input secret and every directory/store state, the live
body of `handle_calendar_share_ical` returns `Err(Resource(NotFound))`
with detail `"Calendar share link not found"`: it never returns `Ok`
(the code after the early `return` is unreachable), and the result is
identical across any two directory/store states. -/
theorem handle_always_notFound (env env2 : Env) (secret : List Char) :
    handle_calendar_share_ical env secret = .error notFoundErr ∧
    (∀ r, handle_calendar_share_ical env secret ≠ .ok r) ∧
    handle_calendar_share_ical env secret = handle_calendar_share_ical env2 secret :=
  ⟨rfl, fun _ h => Except.noConfusion h, rfl⟩

/-- C3: resolution failure is a single NotFound condition with a fixed
detail — when the directory listing of `e1` holds no verifying token for
the hashed secret of `s1`, and in `e2` a share-link token decodes but
its stored hash fails verification (and nothing else matches), both runs
of the pipeline fail with exactly the same error value
`Resource(NotFound) / "Calendar share link not found"`; the two causes
are indistinguishable to the caller. -/
theorem resolution_notFound_uniform (e1 e2 : Env) (s1 s2 : List Char)
    (ps1 ps2 : List Principal)
    (hd1 : e1.directoryList = .ok ps1)
    (hd2 : e2.directoryList = .ok ps2)
    (hr1 : resolveShare (e1.hashSecret s1) ps1 = none)
    (htok : ∃ pr ∈ ps2, ∃ t meta storedHash,
      PrincipalData.calendarShareLink t ∈ pr.data ∧
      decode t = some (meta, storedHash) ∧ storedHash ≠ e2.hashSecret s2)
    (hr2 : resolveShare (e2.hashSecret s2) ps2 = none) :
    exportSharedCalendar e1 s1 = .error notFoundErr ∧
    exportSharedCalendar e2 s2 = .error notFoundErr ∧
    exportSharedCalendar e1 s1 = exportSharedCalendar e2 s2 := by
  have h1 : exportSharedCalendar e1 s1 = .error notFoundErr := by
    rw [exportSharedCalendar, hd1]
    simp only [hr1]
  have h2 : exportSharedCalendar e2 s2 = .error notFoundErr := by
    rw [exportSharedCalendar, hd2]
    simp only [hr2]
  exact ⟨h1, h2, h1.trans h2.symm⟩

/-- Concrete instance for the uniform NotFound error: `e1` holds no
share-link token at all, `e2` holds a token whose stored hash `h` fails
verification against the hashed secret `z`; both runs produce the same
fixed NotFound error. -/
theorem resolution_notFound_uniform_witness :
    exportSharedCalendar
      ⟨fun s => s, .ok [⟨9, [.other 1]⟩], fun _ => .ok [], fun _ _ => .ok none⟩
      "q".data = .error notFoundErr ∧
    exportSharedCalendar
      ⟨fun s => s, .ok [samplePrincipal], fun _ => .ok [], fun _ _ => .ok none⟩
      "z".data = .error notFoundErr := by
  have h := resolution_notFound_uniform
    ⟨fun s => s, .ok [⟨9, [.other 1]⟩], fun _ => .ok [], fun _ _ => .ok none⟩
    ⟨fun s => s, .ok [samplePrincipal], fun _ => .ok [], fun _ _ => .ok none⟩
    "q".data "z".data [⟨9, [.other 1]⟩] [samplePrincipal]
    rfl rfl (by decide)
    ⟨samplePrincipal, by decide, sampleToken, "7|a|b".data, "h".data,
      by decide, by decide, by decide⟩
    (by decide)
  exact ⟨h.1, h.2.1⟩

/-- C1: every document the export pipeline returns begins with the line
`BEGIN:VCALENDAR` and ends with the line `END:VCALENDAR`; and when the
bearer secret resolves to an (account, calendar) pair whose calendar has
zero matching event resources, the result is still a success whose body
is exactly header plus footer. -/
theorem export_document_framed (env : Env) (secret : List Char)
    (resp : HttpResponse)
    (hok : exportSharedCalendar env secret = .ok resp) :
    (∃ rest, resp.body = "BEGIN:VCALENDAR\r\n".data ++ rest) ∧
    (∃ front, resp.body = front ++ "END:VCALENDAR\r\n".data) ∧
    (∀ principals aid cid rs,
      env.directoryList = .ok principals →
      resolveShare (env.hashSecret secret) principals = some (aid, cid) →
      env.fetchResources aid = .ok rs →
      (∀ r ∈ rs, isMatch cid r = false) →
      resp.body = icalHeader ++ icalFooter) := by
  simp only [exportSharedCalendar] at hok
  split at hok
  next e hdir => exact Except.noConfusion hok
  next principals0 hdir =>
    split at hok
    next hres => exact Except.noConfusion hok
    next aid0 cid0 hres =>
      split at hok
      next e hfetch => exact Except.noConfusion hok
      next rs0 hfetch =>
        split at hok
        next e hbuild => exact Except.noConfusion hok
        next bodies hbuild =>
          obtain rfl : _ = resp := Except.ok.inj hok
          have hsplit : icalHeader =
              "BEGIN:VCALENDAR\r\n".data ++
                "VERSION:2.0\r\nPRODID:-//Stalwart//Calendar Share//EN\r\n".data := rfl
          refine ⟨?_, ?_, ?_⟩
          · refine ⟨"VERSION:2.0\r\nPRODID:-//Stalwart//Calendar Share//EN\r\n".data ++
              (bodies.flatten ++ icalFooter), ?_⟩
            show icalHeader ++ (bodies.flatten ++ icalFooter) = _
            rw [hsplit, List.append_assoc]
          · refine ⟨icalHeader ++ bodies.flatten, ?_⟩
            show icalHeader ++ (bodies.flatten ++ icalFooter) = _
            rw [List.append_assoc]
            rfl
          · intro principals aid cid rs h1 h2 h3 h4
            rw [hdir] at h1
            obtain rfl : principals0 = principals := Except.ok.inj h1
            rw [hres] at h2
            have hpair := Option.some.inj h2
            obtain ⟨rfl, rfl⟩ : aid0 = aid ∧ cid0 = cid :=
              ⟨congrArg Prod.fst hpair, congrArg Prod.snd hpair⟩
            rw [hfetch] at h3
            obtain rfl : rs0 = rs := Except.ok.inj h3
            have hempty := buildBodies_all_skipped env aid0 cid0 h4
            rw [hbuild] at hempty
            obtain rfl : bodies = [] := Except.ok.inj hempty
            show icalHeader ++ (List.flatten [] ++ icalFooter) = _
            simp

/-- Concrete instance: a resolving secret whose calendar holds zero
event resources yields exactly header plus footer, as a success. -/
theorem export_document_framed_witness :
    exportSharedCalendar
      ⟨fun s => s, .ok [samplePrincipal], fun _ => .ok [⟨true, 7, 0⟩],
        fun _ _ => .ok none⟩ "h".data =
      .ok ⟨200,
        [("Content-Type", "text/calendar; charset=utf-8"),
         ("Content-Disposition", "attachment; filename=\"calendar.ics\"")],
        icalHeader ++ icalFooter⟩ ∧
    (∃ rest, icalHeader ++ icalFooter = "BEGIN:VCALENDAR\r\n".data ++ rest) ∧
    (∃ front, icalHeader ++ icalFooter = front ++ "END:VCALENDAR\r\n".data) := by
  have hok : exportSharedCalendar
      ⟨fun s => s, .ok [samplePrincipal], fun _ => .ok [⟨true, 7, 0⟩],
        fun _ _ => .ok none⟩ "h".data =
      .ok ⟨200,
        [("Content-Type", "text/calendar; charset=utf-8"),
         ("Content-Disposition", "attachment; filename=\"calendar.ics\"")],
        icalHeader ++ icalFooter⟩ := rfl
  have h := export_document_framed _ "h".data _ hok
  exact ⟨hok, h.1, h.2.1⟩

/-- C8: the loop of lines 105-123 emits one event body for a resource
exactly when the resource passes the filter `not container ∧
collection-id-rendered-as-text = calendarId` — under the proviso (the
claim's scenario) that every filtered resource has a present, decodable
record, the pipeline succeeds and the body count equals the filtered
resource count. -/
theorem filter_selects_exactly (env : Env) (aid : Nat) (cid : List Char)
    (rs : List Resource)
    (hrec : ∀ r ∈ rs, isMatch cid r = true →
      ∃ ev, env.getValue aid r.documentId = .ok (some (.valid ev))) :
    ∃ bodies, buildBodies env aid cid rs = .ok bodies ∧
      bodies.length = (rs.filter (fun r => isMatch cid r)).length := by
  have hne : ∀ r ∈ rs, isMatch cid r = true →
      ∀ e, env.getValue aid r.documentId ≠ .error e := by
    intro r hr hm e he
    obtain ⟨ev, hv⟩ := hrec r hr hm
    rw [hv] at he
    exact Except.noConfusion he
  obtain ⟨bodies, hb, hlen⟩ := buildBodies_ok hne
  refine ⟨bodies, hb, ?_⟩
  rw [hlen]
  have hfeq : rs.filter (fun r => isMatch cid r && rendersBody env aid r) =
      rs.filter (fun r => isMatch cid r) := by
    apply List.filter_congr
    intro r hr
    cases hm : isMatch cid r with
    | false => simp
    | true =>
      obtain ⟨ev, hv⟩ := hrec r hr hm
      simp [rendersBody, hv, unarchive]
  rw [hfeq]

/-- Concrete instance: three leaf resources in calendar 7, two leaf
resources in calendar 8 and the container itself; the export carries
exactly three event bodies. -/
theorem filter_selects_exactly_witness :
    ∃ bodies, buildBodies sampleEnv 5 "7".data sampleResources = .ok bodies ∧
      bodies.length = 3 := by
  obtain ⟨bodies, hb, hlen⟩ := filter_selects_exactly sampleEnv 5 "7".data
    sampleResources (fun r hr hm => ⟨sampleEvent, rfl⟩)
  refine ⟨bodies, hb, ?_⟩
  rw [hlen]
  decide

/-- C9: a listed resource whose archived record is absent is silently
skipped and the export continues, as is a record that fails to decode —
provided no record fetch fails at the storage level, the loop succeeds
and produces one body per filtered resource whose record is present and
decodes, and none for the others. -/
theorem missing_record_skipped (env : Env) (aid : Nat) (cid : List Char)
    (rs : List Resource)
    (hok : ∀ r ∈ rs, isMatch cid r = true →
      ∀ e, env.getValue aid r.documentId ≠ .error e) :
    ∃ bodies, buildBodies env aid cid rs = .ok bodies ∧
      bodies.length =
        (rs.filter (fun r => isMatch cid r && rendersBody env aid r)).length :=
  buildBodies_ok hok

/-- Concrete instance: of three matching leaf resources, one has no
stored record (document 2) in the first environment, and one has an
undecodable record in the second; both exports succeed with exactly two
event bodies. -/
theorem missing_record_skipped_witness :
    (∃ bodies, buildBodies
        ⟨fun s => s, .ok [samplePrincipal], fun _ => .ok [],
          fun _ d => if d == 2 then .ok none else .ok (some (.valid sampleEvent))⟩
        5 "7".data [⟨false, 7, 1⟩, ⟨false, 7, 2⟩, ⟨false, 7, 3⟩] = .ok bodies ∧
      bodies.length = 2) ∧
    (∃ bodies, buildBodies
        ⟨fun s => s, .ok [samplePrincipal], fun _ => .ok [],
          fun _ d => if d == 2 then .ok (some (.corrupt 0))
                     else .ok (some (.valid sampleEvent))⟩
        5 "7".data [⟨false, 7, 1⟩, ⟨false, 7, 2⟩, ⟨false, 7, 3⟩] = .ok bodies ∧
      bodies.length = 2) := by
  constructor
  · obtain ⟨bodies, hb, hlen⟩ := missing_record_skipped
      ⟨fun s => s, .ok [samplePrincipal], fun _ => .ok [],
        fun _ d => if d == 2 then .ok none else .ok (some (.valid sampleEvent))⟩
      5 "7".data [⟨false, 7, 1⟩, ⟨false, 7, 2⟩, ⟨false, 7, 3⟩]
      (by intro r hr hm e; fin_cases hr <;> simp)
    refine ⟨bodies, hb, ?_⟩
    rw [hlen]
    decide
  · obtain ⟨bodies, hb, hlen⟩ := missing_record_skipped
      ⟨fun s => s, .ok [samplePrincipal], fun _ => .ok [],
        fun _ d => if d == 2 then .ok (some (.corrupt 0))
                   else .ok (some (.valid sampleEvent))⟩
      5 "7".data [⟨false, 7, 1⟩, ⟨false, 7, 2⟩, ⟨false, 7, 3⟩]
      (by intro r hr hm e; fin_cases hr <;> simp)
    refine ⟨bodies, hb, ?_⟩
    rw [hlen]
    decide

/-- C10: collaborator failures propagate as storage errors, distinct
from NotFound and augmented with location context, for each of the three
fallible collaborators of the pipeline: the directory listing, the
resource listing, and a record fetch reached by the per-resource loop. -/
theorem storage_errors_propagate (env : Env) (secret : List Char)
    (e : StorageErr) :
    (env.directoryList = .error e →
      exportSharedCalendar env secret =
        .error (.storage (e.causedBy directoryLoc)) ∧
      ∀ d, exportSharedCalendar env secret ≠ .error (.notFound d)) ∧
    (∀ principals aid cid, env.directoryList = .ok principals →
      resolveShare (env.hashSecret secret) principals = some (aid, cid) →
      env.fetchResources aid = .error e →
      exportSharedCalendar env secret =
        .error (.storage (e.causedBy fetchLoc)) ∧
      ∀ d, exportSharedCalendar env secret ≠ .error (.notFound d)) ∧
    (∀ principals aid cid pre r suf, env.directoryList = .ok principals →
      resolveShare (env.hashSecret secret) principals = some (aid, cid) →
      env.fetchResources aid = .ok (pre ++ r :: suf) →
      (∀ x ∈ pre, isMatch cid x = true →
        ∀ e2, env.getValue aid x.documentId ≠ .error e2) →
      isMatch cid r = true →
      env.getValue aid r.documentId = .error e →
      exportSharedCalendar env secret =
        .error (.storage (e.causedBy getValueLoc)) ∧
      ∀ d, exportSharedCalendar env secret ≠ .error (.notFound d)) := by
  refine ⟨?_, ?_, ?_⟩
  · intro hdir
    have heq : exportSharedCalendar env secret =
        .error (.storage (e.causedBy directoryLoc)) := by
      simp only [exportSharedCalendar, hdir]
    refine ⟨heq, ?_⟩
    intro d hcontra
    rw [heq] at hcontra
    exact TrcError.noConfusion (Except.error.inj hcontra)
  · intro principals aid cid hdir hres hfetch
    have heq : exportSharedCalendar env secret =
        .error (.storage (e.causedBy fetchLoc)) := by
      simp only [exportSharedCalendar, hdir, hres, hfetch]
    refine ⟨heq, ?_⟩
    intro d hcontra
    rw [heq] at hcontra
    exact TrcError.noConfusion (Except.error.inj hcontra)
  · intro principals aid cid pre r suf hdir hres hfetch hpre hm hg
    have hbuild := buildBodies_error suf hm hg hpre
    have heq : exportSharedCalendar env secret =
        .error (.storage (e.causedBy getValueLoc)) := by
      simp only [exportSharedCalendar, hdir, hres, hfetch, hbuild]
    refine ⟨heq, ?_⟩
    intro d hcontra
    rw [heq] at hcontra
    exact TrcError.noConfusion (Except.error.inj hcontra)

/-- Concrete instances: a directory-listing failure, a resource-listing
failure, and a record-fetch failure each surface as a storage error with
the corresponding location context, never as NotFound. -/
theorem storage_errors_propagate_witness :
    exportSharedCalendar
      ⟨fun s => s, .error ⟨3, []⟩, fun _ => .ok [], fun _ _ => .ok none⟩
      "h".data = .error (.storage ⟨3, [directoryLoc]⟩) ∧
    exportSharedCalendar
      ⟨fun s => s, .ok [samplePrincipal], fun _ => .error ⟨4, []⟩,
        fun _ _ => .ok none⟩
      "h".data = .error (.storage ⟨4, [fetchLoc]⟩) ∧
    exportSharedCalendar
      ⟨fun s => s, .ok [samplePrincipal], fun _ => .ok [⟨false, 7, 1⟩],
        fun _ _ => .error ⟨5, []⟩⟩
      "h".data = .error (.storage ⟨5, [getValueLoc]⟩) := by
  refine ⟨?_, ?_, ?_⟩
  · exact ((storage_errors_propagate
      ⟨fun s => s, .error ⟨3, []⟩, fun _ => .ok [], fun _ _ => .ok none⟩
      "h".data ⟨3, []⟩).1 rfl).1
  · exact ((storage_errors_propagate
      ⟨fun s => s, .ok [samplePrincipal], fun _ => .error ⟨4, []⟩,
        fun _ _ => .ok none⟩
      "h".data ⟨4, []⟩).2.1 [samplePrincipal] 5 "7".data rfl (by decide) rfl).1
  · exact ((storage_errors_propagate
      ⟨fun s => s, .ok [samplePrincipal], fun _ => .ok [⟨false, 7, 1⟩],
        fun _ _ => .error ⟨5, []⟩⟩
      "h".data ⟨5, []⟩).2.2 [samplePrincipal] 5 "7".data [] ⟨false, 7, 1⟩ []
      rfl (by decide) rfl (by simp) (by decide) rfl).1
